import Mathlib

/-!
# Verification of the go-supervise Supervisor and Actor adapter

A shallow embedding of the core of the `go-supervise` repository:

* `Supervisor` (src/supervisor/supervisor.go): each call to `Run` spawns,
  per `SupervisableWorker`, `Count` goroutines via `s.wg.Go`; each goroutine
  increments `runningWorkers`, repeatedly calls `worker.Func(s.ctx)` and,
  once `s.ctx.Err() != nil` is observed after a call returns, breaks out of
  the loop, decrementing `runningWorkers` (deferred) and the wait group.
  We model one launched goroutine by a `Phase` and the whole supervisor by a
  `State`; the interleaved concurrent execution is the step relation `Step`,
  whose constructors each correspond to one atomic action of the source
  (atomicity of the counter updates mirrors the `sync.RWMutex` held by
  `incWorkerCount`, `decWorkerCount` and `CurrentWorkerCount`).

* The Actor adapter (the `ControlMessage`/`Envelope`/`ActorWorker` file of
  the repository): `ActorWorker` is modelled as a function from the actor's
  capabilities and the linearised sequence of events its `select` observes
  (context done, mailbox receive, mailbox closed) to an optional
  `WorkerResult`; `none` means the select trace ended with the call still
  blocked, so the call has not returned and the deferred block has not run.

* Logging (src/logging.go, package `supervisor`, and src/logger/logging.go,
  package `logger`): both are pure functions from the current global sink
  and a message to the produced output lines.
-/

namespace Supervisor

/-- Phase of one goroutine launched by `Run` (src/supervisor/supervisor.go
lines 84-95): not yet scheduled, inside a `worker.Func(s.ctx)` call, between
a return of `worker.Func` and the `s.ctx.Err()` check / next call, or
permanently exited from the restart loop. -/
inductive Phase where
  | notStarted
  | inCall
  | between
  | exited
deriving DecidableEq, Repr

/-- State of one Supervisor: the phases of every launched instance, whether
`s.ctx` has been cancelled (`s.ctx.Err() != nil`), the `runningWorkers`
counter (a Go `int`), the `sync.WaitGroup` counter, and a ghost count of how
many times `worker.Func` has been entered in total. -/
structure State where
  phases : List Phase
  cancelled : Bool
  runningWorkers : Int
  wgCount : Nat
  totalCalls : Nat
deriving DecidableEq, Repr

/-- An instance whose goroutine has started and whose restart loop has not
permanently exited: it is between `incWorkerCount` and the deferred
`decWorkerCount`. -/
def Phase.isActive : Phase → Bool
  | .inCall => true
  | .between => true
  | _ => false

/-- An instance whose restart loop has not permanently exited: it is between
the `s.wg.Go` registration and the wait-group decrement at goroutine exit. -/
def Phase.isLive : Phase → Bool
  | .exited => false
  | _ => true

/-- An instance currently inside a `worker.Func(s.ctx)` call. -/
def Phase.isInCall : Phase → Bool
  | .inCall => true
  | _ => false

/-- An instance whose goroutine has not yet begun executing. -/
def Phase.isNotStarted : Phase → Bool
  | .notStarted => true
  | _ => false

/-- Number of instances currently inside a `worker.Func(s.ctx)` call. -/
def inCallCount (s : State) : Nat :=
  s.phases.countP Phase.isInCall

/-- Number of instances between `incWorkerCount` and `decWorkerCount`. -/
def activeCount (s : State) : Nat :=
  s.phases.countP Phase.isActive

/-- Number of instances whose restart loop has not permanently exited. -/
def liveCount (s : State) : Nat :=
  s.phases.countP Phase.isLive

/-- Number of instances whose goroutine has not yet begun executing. -/
def notStartedCount (s : State) : Nat :=
  s.phases.countP Phase.isNotStarted

/-- One atomic action of the supervisor's concurrent execution, mirroring
src/supervisor/supervisor.go:

* `start`: a spawned goroutine begins: `s.incWorkerCount()` (line 85) and
  entry into `worker.Func(s.ctx)` (line 89, first iteration);
* `ret`: the current `worker.Func(s.ctx)` call returns (line 89);
* `relaunch`: the `s.ctx.Err() != nil` check (line 91) fails, so the `for`
  loop calls `worker.Func(s.ctx)` again (line 89);
* `exitLoop`: the `s.ctx.Err() != nil` check succeeds: `break` (line 92),
  the deferred `s.decWorkerCount()` (line 86) runs and the goroutine ends,
  decrementing the wait group (`s.wg.Go` semantics);
* `cancel`: `Stop()` invokes the context cancellation function `s.stop()`
  (lines 112-114). -/
inductive Step : State → State → Prop where
  | start (s : State) (pre post : List Phase)
      (h : s.phases = pre ++ Phase.notStarted :: post) :
      Step s { s with
        phases := pre ++ Phase.inCall :: post,
        runningWorkers := s.runningWorkers + 1,
        totalCalls := s.totalCalls + 1 }
  | ret (s : State) (pre post : List Phase)
      (h : s.phases = pre ++ Phase.inCall :: post) :
      Step s { s with phases := pre ++ Phase.between :: post }
  | relaunch (s : State) (pre post : List Phase)
      (h : s.phases = pre ++ Phase.between :: post)
      (hc : s.cancelled = false) :
      Step s { s with
        phases := pre ++ Phase.inCall :: post,
        totalCalls := s.totalCalls + 1 }
  | exitLoop (s : State) (pre post : List Phase)
      (h : s.phases = pre ++ Phase.between :: post)
      (hc : s.cancelled = true) :
      Step s { s with
        phases := pre ++ Phase.exited :: post,
        runningWorkers := s.runningWorkers - 1,
        wgCount := s.wgCount - 1 }
  | cancel (s : State) :
      Step s { s with cancelled := true }

/-- Finitely many interleaved atomic actions. -/
inductive Steps : State → State → Prop where
  | refl (s : State) : Steps s s
  | tail {s t u : State} : Steps s t → Step t u → Steps s u

theorem Steps.single {s t : State} (h : Step s t) : Steps s t :=
  Steps.tail (Steps.refl s) h

theorem Steps.trans {s t u : State} (h1 : Steps s t) (h2 : Steps t u) :
    Steps s u := by
  induction h2 with
  | refl => exact h1
  | tail _ hstep ih => exact Steps.tail ih hstep

/-- A `SupervisableWorker` pairs a task function with a desired instance
count (src/supervisor/supervisor.go lines 20-23); the function's behaviour
is abstracted by the nondeterministic `ret` step, so only `Count` matters
to the model. -/
structure SupervisableWorker where
  Count : Nat
deriving DecidableEq, Repr

/-- Sum of the `Count` fields: the total number of instances one `Run`
launches (the nested loops of lines 82-83). -/
def totalCount (workers : List SupervisableWorker) : Nat :=
  (workers.map SupervisableWorker.Count).sum

/-- State right after `Run()` returns (src/supervisor/supervisor.go lines
81-98), given the cancellation status of the scope `s.ctx` that `Run` uses:
for every worker, `Count` goroutines have been registered with the wait
group (`s.wg.Go` increments the group before the goroutine runs) but have
not necessarily begun executing. -/
def runState (workers : List SupervisableWorker) (scopeCancelled : Bool) :
    State :=
  { phases := List.replicate (totalCount workers) Phase.notStarted,
    cancelled := scopeCancelled,
    runningWorkers := 0,
    wgCount := totalCount workers,
    totalCalls := 0 }

/-- Semantics of `Stop()` (src/supervisor/supervisor.go lines 112-114):
invoking the `context.CancelFunc` cancels the shared scope; it touches no
other field and `context.CancelFunc` is one-shot, so further invocations
have no effect. -/
def stopSem (s : State) : State :=
  { s with cancelled := true }

/-- Semantics of `Restart()` (src/supervisor/supervisor.go lines 103-108):
`s.Stop()`, then `s.wg.Wait()` drains every instance, then the deferred
`s.Run()` relaunches all instances under the SAME `s.ctx` — no new context
is ever created, so the relaunch happens under the scope that `Stop` has
just cancelled. -/
def restartSem (workers : List SupervisableWorker) (s : State) : State :=
  runState workers (stopSem s).cancelled

/-- The counter/wait-group invariant: `runningWorkers` equals the number of
instances between `incWorkerCount` and `decWorkerCount`, and the wait-group
counter equals the number of instances whose restart loop has not
permanently exited. -/
def Inv (s : State) : Prop :=
  s.runningWorkers = (activeCount s : Int) ∧ s.wgCount = liveCount s

theorem Inv_step {s t : State} (hst : Step s t) (h : Inv s) : Inv t := by
  obtain ⟨h1, h2⟩ := h
  cases hst with
  | start pre post hph =>
      refine ⟨?_, ?_⟩ <;>
        simp [Inv, activeCount, liveCount, hph, List.countP_append,
          List.countP_cons, Phase.isActive, Phase.isLive] at * <;>
        omega
  | ret pre post hph =>
      refine ⟨?_, ?_⟩ <;>
        simp [Inv, activeCount, liveCount, hph, List.countP_append,
          List.countP_cons, Phase.isActive, Phase.isLive] at * <;>
        omega
  | relaunch pre post hph hc =>
      refine ⟨?_, ?_⟩ <;>
        simp [Inv, activeCount, liveCount, hph, List.countP_append,
          List.countP_cons, Phase.isActive, Phase.isLive] at * <;>
        omega
  | exitLoop pre post hph hc =>
      refine ⟨?_, ?_⟩ <;>
        simp [Inv, activeCount, liveCount, hph, List.countP_append,
          List.countP_cons, Phase.isActive, Phase.isLive] at * <;>
        omega
  | cancel =>
      exact ⟨h1, h2⟩

theorem Inv_steps {s t : State} (hst : Steps s t) (h : Inv s) : Inv t := by
  induction hst with
  | refl => exact h
  | tail _ hstep ih => exact Inv_step hstep ih

theorem step_length_eq {s t : State} (hst : Step s t) :
    t.phases.length = s.phases.length := by
  cases hst <;> simp_all

theorem steps_length_eq {s t : State} (hst : Steps s t) :
    t.phases.length = s.phases.length := by
  induction hst with
  | refl => rfl
  | tail _ hstep ih => rw [step_length_eq hstep, ih]

theorem step_cancelled_mono {s t : State} (hst : Step s t)
    (hc : s.cancelled = true) : t.cancelled = true := by
  cases hst <;> simp_all

theorem steps_cancelled_mono {s t : State} (hst : Steps s t)
    (hc : s.cancelled = true) : t.cancelled = true := by
  induction hst with
  | refl => exact hc
  | tail _ hstep ih => exact step_cancelled_mono hstep ih

/-- Ghost invariant for executions under an already-cancelled scope: every
instance that has begun executing has entered `worker.Func` exactly once,
so calls plus not-yet-started instances is constant. -/
def callsInv (n : Nat) (s : State) : Prop :=
  s.totalCalls + notStartedCount s = n

theorem callsInv_step {n : Nat} {s t : State} (hst : Step s t)
    (hc : s.cancelled = true) (h : callsInv n s) : callsInv n t := by
  cases hst with
  | start pre post hph =>
      simp [callsInv, notStartedCount, hph, List.countP_append,
        List.countP_cons, Phase.isNotStarted] at *
      omega
  | ret pre post hph =>
      simp [callsInv, notStartedCount, hph, List.countP_append,
        List.countP_cons, Phase.isNotStarted] at *
      omega
  | relaunch pre post hph hcf =>
      rw [hc] at hcf
      exact absurd hcf (by simp)
  | exitLoop pre post hph hcc =>
      simp [callsInv, notStartedCount, hph, List.countP_append,
        List.countP_cons, Phase.isNotStarted] at *
      omega
  | cancel =>
      exact h

theorem callsInv_steps {n : Nat} {s t : State} (hst : Steps s t)
    (hc : s.cancelled = true) (h : callsInv n s) : callsInv n t := by
  induction hst with
  | refl => exact h
  | tail hs hstep ih =>
      exact callsInv_step hstep (steps_cancelled_mono hs hc) ih

/-- Progress measure used to drain the system once cancelled. -/
def phaseWeight : Phase → Nat
  | .notStarted => 3
  | .inCall => 2
  | .between => 1
  | .exited => 0

def weightOf (s : State) : Nat :=
  (s.phases.map phaseWeight).sum

/-- Once the scope is cancelled, the whole system can always drain: there is
a finite interleaving after which every instance has permanently exited its
restart loop. Each instance just takes its enabled steps; a task function
respecting the Task Contract returns from its current call (`ret`), after
which only `exitLoop` is enabled. -/
theorem drain : ∀ (k : Nat) (s : State), weightOf s ≤ k →
    s.cancelled = true →
    ∃ t, Steps s t ∧ ∀ p ∈ t.phases, p = Phase.exited := by
  intro k
  induction k with
  | zero =>
      intro s hw hc
      refine ⟨s, Steps.refl s, fun p hp => ?_⟩
      have hz : (s.phases.map phaseWeight).sum = 0 := Nat.le_zero.mp hw
      have hmem : phaseWeight p = 0 := by
        have := List.sum_eq_zero_iff.mp hz (phaseWeight p)
          (List.mem_map_of_mem phaseWeight hp)
        exact this
      cases p <;> simp [phaseWeight] at hmem ⊢
  | succ k ih =>
      intro s hw hc
      by_cases hall : ∀ p ∈ s.phases, p = Phase.exited
      · exact ⟨s, Steps.refl s, hall⟩
      · push_neg at hall
        obtain ⟨p, hp, hne⟩ := hall
        obtain ⟨pre, post, hph⟩ := List.append_of_mem hp
        cases p with
        | exited => exact absurd rfl hne
        | notStarted =>
            have hstep := Step.start s pre post hph
            have hw' : weightOf { s with
                phases := pre ++ Phase.inCall :: post,
                runningWorkers := s.runningWorkers + 1,
                totalCalls := s.totalCalls + 1 } ≤ k := by
              rw [weightOf] at hw ⊢
              rw [hph] at hw
              simp only [List.map_append, List.map_cons, List.sum_append,
                List.sum_cons, phaseWeight] at hw ⊢
              omega
            obtain ⟨u, hsu, hu⟩ := ih _ hw' hc
            exact ⟨u, Steps.trans (Steps.single hstep) hsu, hu⟩
        | inCall =>
            have hstep := Step.ret s pre post hph
            have hw' : weightOf { s with
                phases := pre ++ Phase.between :: post } ≤ k := by
              rw [weightOf] at hw ⊢
              rw [hph] at hw
              simp only [List.map_append, List.map_cons, List.sum_append,
                List.sum_cons, phaseWeight] at hw ⊢
              omega
            obtain ⟨u, hsu, hu⟩ := ih _ hw' hc
            exact ⟨u, Steps.trans (Steps.single hstep) hsu, hu⟩
        | between =>
            have hstep := Step.exitLoop s pre post hph hc
            have hw' : weightOf { s with
                phases := pre ++ Phase.exited :: post,
                runningWorkers := s.runningWorkers - 1,
                wgCount := s.wgCount - 1 } ≤ k := by
              rw [weightOf] at hw ⊢
              rw [hph] at hw
              simp only [List.map_append, List.map_cons, List.sum_append,
                List.sum_cons, phaseWeight] at hw ⊢
              omega
            obtain ⟨u, hsu, hu⟩ := ih _ hw' hc
            exact ⟨u, Steps.trans (Steps.single hstep) hsu, hu⟩

theorem liveCount_eq_zero_iff (s : State) :
    liveCount s = 0 ↔ ∀ p ∈ s.phases, p = Phase.exited := by
  rw [liveCount, List.countP_eq_zero]
  constructor
  · intro h p hp
    have := h p hp
    cases p <;> simp [Phase.isLive] at this ⊢
  · intro h p hp
    rw [h p hp]
    simp [Phase.isLive]

theorem Inv_runState (workers : List Supervisor.SupervisableWorker)
    (c : Bool) : Inv (runState workers c) := by
  constructor <;>
    simp [runState, activeCount, liveCount, List.countP_replicate,
      Phase.isActive, Phase.isLive]

theorem reachable_Inv {workers : List SupervisableWorker} {c : Bool}
    {s : State} (hs : Steps (runState workers c) s) : Inv s :=
  Inv_steps hs (Inv_runState workers c)

theorem notStartedCount_eq_zero {s : State}
    (h : ∀ p ∈ s.phases, p = Phase.exited) : notStartedCount s = 0 := by
  rw [notStartedCount, List.countP_eq_zero]
  intro p hp
  rw [h p hp]
  simp [Phase.isNotStarted]

/-- Once cancelled, a state satisfying the counter invariant drains to a
state in which every instance has permanently exited and the wait group has
reached zero. -/
theorem drain_to_zero {s : State} (hInv : Inv s) (hc : s.cancelled = true) :
    ∃ t, Steps s t ∧ (∀ p ∈ t.phases, p = Phase.exited) ∧ t.wgCount = 0 := by
  obtain ⟨t, hst, hall⟩ := drain (weightOf s) s le_rfl hc
  refine ⟨t, hst, hall, ?_⟩
  have hInvT : Inv t := Inv_steps hst hInv
  rw [hInvT.2, liveCount, List.countP_eq_zero]
  intro p hp
  rw [hall p hp]
  simp [Phase.isLive]

end Supervisor

namespace Supervisor

/-- Claim C7: in every state reachable from a completed `Run()` under a live
scope, the `runningWorkers` counter lies in the closed interval from `0` to
the sum of all `SupervisableWorker.Count` values. Every mutation of the
counter in the source goes through `incWorkerCount`/`decWorkerCount` and
every read through `CurrentWorkerCount`, all of which hold `s.mtx`
(src/supervisor/supervisor.go lines 37-49 and 117-122); the model reflects
this by making those updates single atomic steps. -/
theorem runningWorkers_in_bounds (workers : List SupervisableWorker)
    (s : State) (hs : Steps (runState workers false) s) :
    0 ≤ s.runningWorkers ∧ s.runningWorkers ≤ (totalCount workers : Int) := by
  have hInv := reachable_Inv hs
  rw [hInv.1]
  have hlen : s.phases.length = totalCount workers := by
    rw [steps_length_eq hs]
    simp [runState]
  have hle : activeCount s ≤ totalCount workers := by
    rw [← hlen, activeCount]
    exact List.countP_le_length Phase.isActive
  constructor
  · exact Int.natCast_nonneg (activeCount s)
  · exact_mod_cast hle

theorem runningWorkers_in_bounds_witness :
    0 ≤ (runState [⟨2⟩, ⟨1⟩] false).runningWorkers ∧
      (runState [⟨2⟩, ⟨1⟩] false).runningWorkers ≤
        (totalCount [⟨2⟩, ⟨1⟩] : Int) :=
  runningWorkers_in_bounds [⟨2⟩, ⟨1⟩] (runState [⟨2⟩, ⟨1⟩] false)
    (Steps.refl (runState [⟨2⟩, ⟨1⟩] false))

/-- A reachable state of a one-instance supervisor in which the single
instance's `worker.Func` call has returned but the scope is live, so the
restart loop is about to call it again. -/
def betweenDemo : State :=
  { phases := [Phase.between],
    cancelled := false,
    runningWorkers := 1,
    wgCount := 1,
    totalCalls := 1 }

/-- A reachable state of a one-instance supervisor in which the single
instance is inside its first `worker.Func` call. -/
def inCallDemo : State :=
  { phases := [Phase.inCall],
    cancelled := false,
    runningWorkers := 1,
    wgCount := 1,
    totalCalls := 1 }

/-- Claim C3 counterexample: `betweenDemo` is reachable from `Run()` on one
instance (the goroutine starts, its `worker.Func` call returns, and the
loop has not yet relaunched it); there the counter is `1` although no
instance is inside a task-function call, so the counter does not equal the
number of instances currently inside a call. -/
theorem counter_differs_from_in_call_count :
    Steps (runState [⟨1⟩] false) betweenDemo ∧
      betweenDemo.runningWorkers = 1 ∧ inCallCount betweenDemo = 0 := by
  refine ⟨?_, rfl, by decide⟩
  have h1 : Step (runState [⟨1⟩] false) inCallDemo :=
    Step.start (runState [⟨1⟩] false) [] [] (by decide)
  have h2 : Step inCallDemo betweenDemo :=
    Step.ret inCallDemo [] [] (by decide)
  exact Steps.tail (Steps.single h1) h2

/-- Claim C3 (amended): in every reachable state the counter equals the
number of instances whose goroutine has started and whose restart loop has
not permanently exited — it is incremented once when the instance begins
executing (before its first task-function call) and decremented once when
the restart loop permanently exits, not at each task-function return, so it
also counts instances momentarily between two calls of their function. -/
theorem counter_counts_loop_active_instances
    (workers : List SupervisableWorker) (s : State)
    (hs : Steps (runState workers false) s) :
    s.runningWorkers = (activeCount s : Int) :=
  (reachable_Inv hs).1

theorem counter_counts_loop_active_instances_witness :
    (runState [⟨1⟩] false).runningWorkers =
      (activeCount (runState [⟨1⟩] false) : Int) :=
  counter_counts_loop_active_instances [⟨1⟩] (runState [⟨1⟩] false)
    (Steps.refl (runState [⟨1⟩] false))

/-- Claim C6: the wait group is incremented once per instance launched by
`Run()` (`s.wg.Go`, line 84) and decremented exactly when that instance's
restart loop permanently exits (the `exitLoop` step), so in every reachable
state it is zero exactly when every launched instance has exited its
restart loop; moreover from any reachable cancelled state a finite
interleaving of the instances' own steps drains the group to zero, so
`Stop()` followed by `Wait()` (lines 112-114 and 125-127) can terminate for
any task functions that respect the Task Contract (their calls return). -/
theorem wait_terminates_after_stop (workers : List SupervisableWorker)
    (s : State) (hs : Steps (runState workers false) s) :
    (s.wgCount = 0 ↔ ∀ p ∈ s.phases, p = Phase.exited) ∧
      (s.cancelled = true →
        ∃ t, Steps s t ∧ t.wgCount = 0 ∧
          ∀ p ∈ t.phases, p = Phase.exited) := by
  have hInv := reachable_Inv hs
  constructor
  · rw [hInv.2]
    exact liveCount_eq_zero_iff s
  · intro hc
    obtain ⟨t, hst, hall, hwg⟩ := drain_to_zero hInv hc
    exact ⟨t, hst, hwg, hall⟩

theorem wait_terminates_after_stop_witness :
    ((stopSem (runState [⟨1⟩] false)).wgCount = 0 ↔
        ∀ p ∈ (stopSem (runState [⟨1⟩] false)).phases, p = Phase.exited) ∧
      ((stopSem (runState [⟨1⟩] false)).cancelled = true →
        ∃ t, Steps (stopSem (runState [⟨1⟩] false)) t ∧ t.wgCount = 0 ∧
          ∀ p ∈ t.phases, p = Phase.exited) :=
  wait_terminates_after_stop [⟨1⟩] (stopSem (runState [⟨1⟩] false))
    (Steps.single (Step.cancel (runState [⟨1⟩] false)))

theorem stopSem_iterate (k : Nat) : ∀ s : State, stopSem^[k + 1] s = stopSem s := by
  induction k with
  | zero => intro s; rfl
  | succ k ih =>
      intro s
      rw [Function.iterate_succ_apply]
      exact ih (stopSem s)

/-- Claim C9: `Stop()` only invokes the one-shot context cancellation
function (src/supervisor/supervisor.go lines 112-114): it cancels the
shared scope, any number of further `Stop()` calls leave the state exactly
as after a single one, it changes no worker phase and no counter, and it is
one atomic `cancel` step of the execution (in particular it never waits on
the wait group or any instance). -/
theorem stop_cancels_scope_and_is_idempotent (s : State) (k : Nat) :
    stopSem^[k + 1] s = stopSem s ∧
      (stopSem s).cancelled = true ∧
      (stopSem s).phases = s.phases ∧
      (stopSem s).runningWorkers = s.runningWorkers ∧
      (stopSem s).wgCount = s.wgCount ∧
      (stopSem s).totalCalls = s.totalCalls ∧
      Step s (stopSem s) :=
  ⟨stopSem_iterate k s, rfl, rfl, rfl, rfl, rfl, Step.cancel s⟩

theorem callsInv_runState (workers : List SupervisableWorker) (c : Bool) :
    callsInv (totalCount workers) (runState workers c) := by
  simp [callsInv, runState, notStartedCount, List.countP_replicate,
    Phase.isNotStarted]

/-- Claim C1 (code bug evaluation): `Restart()` (src/supervisor/
supervisor.go lines 103-108) reuses the already-cancelled `s.ctx` for the
deferred `Run()` — no fresh scope is ever created. Consequently the state
`Restart` leaves behind is cancelled, every execution from it keeps the
scope cancelled, the relaunched instances enter their task function at
most `totalCount` times in total (so each instance runs exactly once more,
never indefinitely), and the system drains to a state where every instance
has permanently exited after exactly `totalCount` task-function entries,
with no subsequent `Stop()` involved. -/
theorem restart_relaunches_under_cancelled_scope
    (workers : List SupervisableWorker) (s0 s : State)
    (hs : Steps (restartSem workers s0) s) :
    (restartSem workers s0).cancelled = true ∧
      s.cancelled = true ∧
      s.totalCalls ≤ totalCount workers ∧
      ∃ t, Steps s t ∧ (∀ p ∈ t.phases, p = Phase.exited) ∧
        t.totalCalls = totalCount workers ∧ t.wgCount = 0 := by
  have hc0 : (restartSem workers s0).cancelled = true := rfl
  have hcs : s.cancelled = true := steps_cancelled_mono hs hc0
  have hci : callsInv (totalCount workers) s :=
    callsInv_steps hs hc0 (callsInv_runState workers true)
  refine ⟨hc0, hcs, ?_, ?_⟩
  · rw [callsInv] at hci
    omega
  · have hInv : Inv s := reachable_Inv hs
    obtain ⟨t, hst, hall, hwg⟩ := drain_to_zero hInv hcs
    refine ⟨t, hst, hall, ?_, hwg⟩
    have hcit : callsInv (totalCount workers) t := callsInv_steps hst hcs hci
    rw [callsInv, notStartedCount_eq_zero hall] at hcit
    omega

theorem restart_relaunches_under_cancelled_scope_witness :
    (restartSem [⟨1⟩] (runState [⟨1⟩] false)).cancelled = true ∧
      (restartSem [⟨1⟩] (runState [⟨1⟩] false)).cancelled = true ∧
      (restartSem [⟨1⟩] (runState [⟨1⟩] false)).totalCalls ≤
        totalCount [⟨1⟩] ∧
      ∃ t, Steps (restartSem [⟨1⟩] (runState [⟨1⟩] false)) t ∧
        (∀ p ∈ t.phases, p = Phase.exited) ∧
        t.totalCalls = totalCount [⟨1⟩] ∧ t.wgCount = 0 :=
  restart_relaunches_under_cancelled_scope [⟨1⟩] (runState [⟨1⟩] false)
    (restartSem [⟨1⟩] (runState [⟨1⟩] false))
    (Steps.refl (restartSem [⟨1⟩] (runState [⟨1⟩] false)))

end Supervisor

namespace Actor

/-- `ControlMessage` is a Go `int` (actor source, `type ControlMessage
int`); besides the three named constants every other integer value is a
possible `Control` field. -/
abbrev ControlMessage := Int

/-- `MessageData ControlMessage = iota`: the default control value. -/
def MessageData : ControlMessage := 0

/-- `MessageStop`: requests that the Actor stops gracefully. -/
def MessageStop : ControlMessage := 1

/-- `MessageRestart`: requests that the Actor restarts. -/
def MessageRestart : ControlMessage := 2

/-- `Envelope` wraps Actor messages: a control value and an opaque payload
(`interface\x7b\x7d`, modelled by a type parameter). -/
structure Envelope (α : Type) where
  Control : ControlMessage
  Payload : α
deriving DecidableEq, Repr

/-- One event observed by the `select` inside the `ActorWorker` loop:
the context's done channel fires, an envelope is received from
`actor.Mailbox()`, or that mailbox is closed (`ok == false`). A concurrent
run linearises into a list of such events. -/
inductive LoopEvent (α : Type) where
  | ctxDone
  | mailboxClosed
  | recv (e : Envelope α)
deriving DecidableEq, Repr

/-- The capabilities of one actor object, as `ActorWorker` discovers them
by dynamic type inspection:

* `initResult`: `none` when the actor does not implement `Initialiser`;
  `some none` when `Init` returns `nil`; `some (some err)` when `Init`
  returns the error `err`;
* `handlePanics p`: whether `actor.Handle(ctx, p)` panics;
* `hasTerminator`: whether the actor implements `Terminator`;
* `terminatePanics`: whether `actor.Terminate(ctx)` panics. -/
structure ActorSpec (α : Type) where
  initResult : Option (Option String)
  handlePanics : α → Bool
  hasTerminator : Bool
  terminatePanics : Bool

/-- Log lines emitted through the package-level `log` helper by the actor
adapter: `actor init failed: ...`, `recovered panic in actor: ...`, and
`recovered panic in actor termination: ...`. -/
inductive LogEvent where
  | initFailed (msg : String)
  | recoveredPanic
  | recoveredTermPanic
deriving DecidableEq, Repr

/-- Observable outcome of one returned `ActorWorker` task-function call:
the payloads `actor.Handle` was invoked with (in order), the log lines, how
many times `actor.Terminate` ran, and whether the `done` channel was closed
by the deferred block. -/
structure WorkerResult (α : Type) where
  handled : List α
  logs : List LogEvent
  terminateCalls : Nat
  doneClosed : Bool
deriving DecidableEq, Repr

/-- `safeTerminate(ctx, terminator)` from the actor source: calls
`terminator.Terminate(ctx)` under its own deferred `recover`, logging a
recovered panic; it always returns. Its result is the log lines emitted. -/
def safeTerminate (terminatePanics : Bool) : List LogEvent :=
  if terminatePanics then [LogEvent.recoveredTermPanic] else []

/-- The deferred block of `ActorWorker` (registered before `Init` runs):
after an optional `recover` of a loop/handler panic, `Terminate` runs via
`safeTerminate` when the actor implements `Terminator`, then `close(done)`.
Returns (number of `Terminate` calls, its log lines). -/
def deferredTerminate (a : ActorSpec α) : Nat × List LogEvent :=
  if a.hasTerminator then (1, safeTerminate a.terminatePanics) else (0, [])

/-- The `for`/`select` loop of `ActorWorker`, fed the linearised events:
stops on context done, on mailbox closure, and on a `MessageRestart` or
`MessageStop` envelope (payload discarded, `Handle` not called); any other
envelope reaches the `default` branch, which calls
`actor.Handle(ctx, envelope.Payload)` synchronously. Returns `none` when
the event list is exhausted with the loop still blocked; otherwise `some`
of the payloads passed to `Handle` and whether a `Handle` call panicked
(ending the whole call via the outer `recover`). -/
def runLoop (a : ActorSpec α) : List (LoopEvent α) → Option (List α × Bool)
  | [] => none
  | LoopEvent.ctxDone :: _ => some ([], false)
  | LoopEvent.mailboxClosed :: _ => some ([], false)
  | LoopEvent.recv e :: rest =>
      if e.Control = MessageRestart ∨ e.Control = MessageStop then
        some ([], false)
      else
        if a.handlePanics e.Payload then
          some ([e.Payload], true)
        else
          match runLoop a rest with
          | none => none
          | some (hs, pf) => some (e.Payload :: hs, pf)

/-- `ActorWorker(actor)`'s task function, as a function of the actor's
capabilities and the linearised loop events. Mirrors the source: register
the deferred block; if the actor implements `Initialiser` and `Init`
returns an error, log `actor init failed` and return (the deferred block
still runs); otherwise enter the loop; when the loop ends (or a `Handle`
panic is recovered and logged), the deferred block runs and the call
returns. `none` means the call has not returned yet. -/
def ActorWorker (a : ActorSpec α) (events : List (LoopEvent α)) :
    Option (WorkerResult α) :=
  match a.initResult with
  | some (some err) =>
      some { handled := [],
             logs := LogEvent.initFailed err :: (deferredTerminate a).2,
             terminateCalls := (deferredTerminate a).1,
             doneClosed := true }
  | _ =>
      match runLoop a events with
      | none => none
      | some (hs, panicked) =>
          some { handled := hs,
                 logs := (if panicked then [LogEvent.recoveredPanic] else [])
                   ++ (deferredTerminate a).2,
                 terminateCalls := (deferredTerminate a).1,
                 doneClosed := true }

/-- Initialization succeeded for this call: either the actor implements no
`Initialiser`, or `Init` returned `nil`. -/
def initOk (a : ActorSpec α) : Prop :=
  a.initResult = none ∨ a.initResult = some none

/-- An actor (with `Nat` payloads) whose `Init` fails and which implements
`Terminator`; its handler never panics and neither does `Terminate`. -/
def badInitActor : ActorSpec Nat :=
  { initResult := some (some ("boom")),
    handlePanics := fun _ => false,
    hasTerminator := true,
    terminatePanics := false }

/-- Claim C2 counterexample: for `badInitActor` — initializer present and
failing, termination hook present — the `ActorWorker` call returns with the
termination hook invoked once (the deferred block registered at the top of
the task function runs it on this exit path too), so it is false that the
termination hook is not invoked for a call whose `Init` fails. -/
theorem init_failure_still_runs_terminate :
    ActorWorker badInitActor ([] : List (LoopEvent Nat)) =
      some { handled := [],
             logs := [LogEvent.initFailed ("boom")],
             terminateCalls := 1,
             doneClosed := true } ∧
      ¬ (∀ r : WorkerResult Nat,
          ActorWorker badInitActor ([] : List (LoopEvent Nat)) = some r →
            r.terminateCalls = 0) := by
  refine ⟨rfl, fun h => ?_⟩
  have := h { handled := [],
              logs := [LogEvent.initFailed ("boom")],
              terminateCalls := 1,
              doneClosed := true } rfl
  simp at this

/-- Claim C2 (amended): when the actor implements `Initialiser` and `Init`
returns an error, `ActorWorker` logs `actor init failed`, never enters the
processing loop (the call's outcome is independent of whatever the mailbox
or scope would have produced, and the handler is invoked with nothing),
and returns — but the deferred block still runs, so the termination hook,
when present, IS invoked (once) before the call returns. -/
theorem init_failure_skips_loop_but_terminates (a : ActorSpec α)
    (evs : List (LoopEvent α)) (err : String)
    (h : a.initResult = some (some err)) :
    ActorWorker a evs =
      some { handled := [],
             logs := LogEvent.initFailed err :: (deferredTerminate a).2,
             terminateCalls := if a.hasTerminator then 1 else 0,
             doneClosed := true } ∧
      ActorWorker a evs = ActorWorker a [] := by
  rw [ActorWorker, h, ActorWorker, h]
  refine ⟨?_, rfl⟩
  rw [deferredTerminate]
  by_cases ht : a.hasTerminator <;> simp [ht]

theorem init_failure_skips_loop_but_terminates_witness :
    ActorWorker badInitActor ([LoopEvent.ctxDone] : List (LoopEvent Nat)) =
      some { handled := [],
             logs := LogEvent.initFailed ("boom") ::
               (deferredTerminate badInitActor).2,
             terminateCalls := if badInitActor.hasTerminator then 1 else 0,
             doneClosed := true } ∧
      ActorWorker badInitActor ([LoopEvent.ctxDone] : List (LoopEvent Nat)) =
        ActorWorker badInitActor [] :=
  init_failure_skips_loop_but_terminates badInitActor [LoopEvent.ctxDone]
    ("boom") rfl

/-- Claim C4: an envelope whose control is `MessageStop` or `MessageRestart`
ends the loop at once — the result is the same whatever events follow, the
payload is discarded and `Handle` is not invoked for it — while an envelope
with the default control `MessageData` leads to exactly one synchronous
`Handle` invocation with its payload, after which the loop continues with
the remaining events. -/
theorem stop_restart_exit_data_handled (a : ActorSpec α) (e : Envelope α)
    (rest : List (LoopEvent α)) :
    ((e.Control = MessageStop ∨ e.Control = MessageRestart) →
        runLoop a (LoopEvent.recv e :: rest) = some ([], false)) ∧
      (e.Control = MessageData → a.handlePanics e.Payload = false →
        ∀ hs pf, runLoop a rest = some (hs, pf) →
          runLoop a (LoopEvent.recv e :: rest) =
            some (e.Payload :: hs, pf)) := by
  constructor
  · intro hc
    rw [runLoop, if_pos hc.symm]
  · intro hc hp hs pf hrest
    rw [runLoop, if_neg, if_neg, hrest]
    · rw [hp]
      simp
    · rw [hc, MessageData, MessageRestart, MessageStop]
      simp

/-- A demonstration actor with no optional capabilities and a total
handler. -/
def plainActor : ActorSpec Nat :=
  { initResult := none,
    handlePanics := fun _ => false,
    hasTerminator := false,
    terminatePanics := false }

theorem stop_restart_exit_data_handled_witness :
    runLoop plainActor
        (LoopEvent.recv ⟨MessageStop, 5⟩ :: [LoopEvent.ctxDone]) =
      some ([], false) ∧
      runLoop plainActor
          (LoopEvent.recv ⟨MessageData, 7⟩ :: [LoopEvent.ctxDone]) =
        some ([7], false) :=
  ⟨(stop_restart_exit_data_handled plainActor ⟨MessageStop, 5⟩
      [LoopEvent.ctxDone]).1 (Or.inl rfl),
    (stop_restart_exit_data_handled plainActor ⟨MessageData, 7⟩
      [LoopEvent.ctxDone]).2 rfl rfl [] false rfl⟩

/-- Claim C5: whenever a call of `ActorWorker` whose initialization
succeeded returns — on scope cancellation, a `Stop`/`Restart` envelope,
mailbox closure, or a recovered handler panic, i.e. any trace for which the
call produces a result — an actor's termination hook runs exactly once,
and a panic inside the hook is recovered by `safeTerminate` and logged
while the call still returns (with `done` closed). -/
theorem terminate_runs_once_on_every_exit (a : ActorSpec α)
    (evs : List (LoopEvent α)) (r : WorkerResult α)
    (hterm : a.hasTerminator = true) (hok : initOk a)
    (hret : ActorWorker a evs = some r) :
    r.terminateCalls = 1 ∧
      (a.terminatePanics = true →
        LogEvent.recoveredTermPanic ∈ r.logs) ∧
      r.doneClosed = true := by
  rw [ActorWorker] at hret
  have hdt : deferredTerminate a = (1, safeTerminate a.terminatePanics) := by
    rw [deferredTerminate, hterm]
    simp
  rcases hok with h0 | h0 <;>
  · rw [h0] at hret
    rcases hl : runLoop a evs with _ | ⟨hs, pf⟩ <;> rw [hl] at hret
    · exact absurd hret (by simp)
    · have hr := (Option.some.injEq _ _).mp hret
      subst hr
      refine ⟨by rw [hdt], fun htp => ?_, rfl⟩
      rw [hdt]
      simp [safeTerminate, htp]

/-- An actor with every optional capability present and a panicking
termination hook. -/
def panickyTermActor : ActorSpec Nat :=
  { initResult := some none,
    handlePanics := fun _ => false,
    hasTerminator := true,
    terminatePanics := true }

theorem terminate_runs_once_on_every_exit_witness :
    (WorkerResult.terminateCalls
        { handled := ([] : List Nat),
          logs := [LogEvent.recoveredTermPanic],
          terminateCalls := 1,
          doneClosed := true } = 1) ∧
      (panickyTermActor.terminatePanics = true →
        LogEvent.recoveredTermPanic ∈
          WorkerResult.logs
            { handled := ([] : List Nat),
              logs := [LogEvent.recoveredTermPanic],
              terminateCalls := 1,
              doneClosed := true }) ∧
      WorkerResult.doneClosed
          { handled := ([] : List Nat),
            logs := [LogEvent.recoveredTermPanic],
            terminateCalls := 1,
            doneClosed := true } = true :=
  terminate_runs_once_on_every_exit panickyTermActor [LoopEvent.ctxDone]
    { handled := [], logs := [LogEvent.recoveredTermPanic],
      terminateCalls := 1, doneClosed := true }
    rfl (Or.inr rfl) rfl

/-- Claim C10: any `Control` value other than `MessageStop` and
`MessageRestart` — not only `MessageData` but every other integer too —
falls into the `switch`'s `default` branch: the loop treats the envelope
exactly as a `Data` envelope and delivers its payload to `Handle`. -/
theorem unknown_controls_treated_as_data (a : ActorSpec α)
    (c : ControlMessage) (p : α) (rest : List (LoopEvent α))
    (h1 : c ≠ MessageStop) (h2 : c ≠ MessageRestart) :
    runLoop a (LoopEvent.recv ⟨c, p⟩ :: rest) =
        runLoop a (LoopEvent.recv ⟨MessageData, p⟩ :: rest) ∧
      (a.handlePanics p = false →
        ∀ hs pf, runLoop a rest = some (hs, pf) →
          runLoop a (LoopEvent.recv ⟨c, p⟩ :: rest) =
            some (p :: hs, pf)) := by
  have hneg : ¬ ((⟨c, p⟩ : Envelope α).Control = MessageRestart ∨
      (⟨c, p⟩ : Envelope α).Control = MessageStop) := by
    simp only [not_or]
    exact ⟨h2, h1⟩
  have hnegd : ¬ ((⟨MessageData, p⟩ : Envelope α).Control = MessageRestart ∨
      (⟨MessageData, p⟩ : Envelope α).Control = MessageStop) := by
    rw [MessageData, MessageRestart, MessageStop]
    simp
  constructor
  · rw [runLoop, runLoop, if_neg hneg, if_neg hnegd]
  · intro hp hs pf hrest
    rw [runLoop, if_neg hneg, hp, hrest]
    simp

theorem unknown_controls_treated_as_data_witness :
    (runLoop plainActor (LoopEvent.recv ⟨7, 9⟩ :: [LoopEvent.ctxDone]) =
        runLoop plainActor
          (LoopEvent.recv ⟨MessageData, 9⟩ :: [LoopEvent.ctxDone])) ∧
      (plainActor.handlePanics 9 = false →
        ∀ hs pf, runLoop plainActor [LoopEvent.ctxDone] = some (hs, pf) →
          runLoop plainActor (LoopEvent.recv ⟨7, 9⟩ :: [LoopEvent.ctxDone]) =
            some (9 :: hs, pf)) :=
  unknown_controls_treated_as_data plainActor 7 9 [LoopEvent.ctxDone]
    (by decide) (by decide)

end Actor

namespace Logging

/-- Abstract identity of a `Logger` implementation (the interfaces in
src/logging.go and src/logger/logging.go expose only `Println(string)`, so
a sink is identified abstractly). -/
abbrev Sink := Nat

/-- Lines produced by one call of a logging helper: lines delivered through
a sink's `Println` and lines written to the standard error stream. -/
structure Output where
  sinkLines : List (Sink × String)
  stderrLines : List String
deriving DecidableEq, Repr

/-- `WithLogger(l)` of both logging files: plain assignment to the
package-level `logger` variable, so the most recently set sink wins. -/
def WithLogger (l : Sink) (_prev : Option Sink) : Option Sink :=
  some l

/-- `log(msg)` from src/logging.go (package `supervisor`, the helper the
core calls): when `logger != nil` it calls `logger.Println(msg)`; when no
sink is set the function body does nothing, so the line is discarded. -/
def log (logger : Option Sink) (msg : String) : Output :=
  match logger with
  | some l => { sinkLines := [(l, msg)], stderrLines := [] }
  | none => { sinkLines := [], stderrLines := [] }

/-- `Log(msg)` from src/logger/logging.go (package `logger`): when
`logger == nil` it writes the line to `os.Stderr`; when a sink has been
set, the body has no branch that runs, so nothing is emitted at all. -/
def Log (logger : Option Sink) (msg : String) : Output :=
  match logger with
  | none => { sinkLines := [], stderrLines := [msg] }
  | some _ => { sinkLines := [], stderrLines := [] }

/-- Claim C8 counterexample: with no sink set, the core's `log` writes
nothing to standard error (the claim requires the line on standard error),
and with a sink set the `logger` package's `Log` delivers nothing to that
sink (the claim requires delivery to the sink). -/
theorem no_stderr_fallback_and_sink_dropped :
    ¬ ((log none ("m")).stderrLines = [("m")]) ∧
      (log none ("m")).stderrLines = [] ∧
      ¬ ((Log (some 0) ("m")).sinkLines = [(0, ("m"))]) ∧
      (Log (some 0) ("m")).sinkLines = [] ∧
      (Log (some 0) ("m")).stderrLines = [] := by
  refine ⟨?_, rfl, ?_, rfl, rfl⟩ <;> decide

/-- Claim C8 (amended): the core's `log` (src/logging.go) delivers the line
to the configured sink when one is set — the most recently set one, since
`WithLogger` overwrites the package variable — and discards the line
entirely when none is set (no standard-error fallback); the separate
`logger` package's `Log` writes the line to standard error only when no
sink is set and emits nothing when one is set. -/
theorem logging_sink_behaviour (l : Sink) (msg : String) :
    log (WithLogger l none) msg =
        { sinkLines := [(l, msg)], stderrLines := [] } ∧
      (∀ prev : Option Sink, WithLogger l prev = some l) ∧
      log none msg = { sinkLines := [], stderrLines := [] } ∧
      Log none msg = { sinkLines := [], stderrLines := [msg] } ∧
      Log (some l) msg = { sinkLines := [], stderrLines := [] } :=
  ⟨rfl, fun _ => rfl, rfl, rfl, rfl⟩

end Logging
